import Mathlib

/-!
Shallow embedding of the xnoapi backtesting core
(`xnoapi/metrics/single_asset.py`, `xnoapi/vn/metrics/backtest.py`,
`xnoapi/vn/metrics/metrics.py`).

Prices and PnL values are modelled as rationals; positions as integers;
timestamps and calendar-date keys as naturals (the input frame is assumed
already sorted by its datetime index, which the constructors enforce via
`sort_index`).  NumPy's non-finite float results (`nan`, `±inf`) arising
from division are modelled explicitly by the `NpVal` type.
-/

/-- One row of the backtest DataFrame: datetime index value `ts`, calendar
date key `date`, close price and position. -/
structure Bar where
  ts : ℕ
  date : ℕ
  close : ℚ
  pos : ℤ
  deriving DecidableEq, Repr

/-- Signed PnL percentage relative to the entry price, as computed inside
both adjuster loops: long (`position == 1`) uses `(current-entry)/entry*100`,
any other (short) position uses `(entry-current)/entry*100`. -/
def pnlPct (pos : ℤ) (entry current : ℚ) : ℚ :=
  if pos = 1 then (current - entry) / entry * 100
  else (entry - current) / entry * 100

/-- The `assert set(positions.unique()) == {-1, 0, 1}` check shared by both
adjusters: every value lies in `{-1,0,1}` and each of the three values
actually occurs. -/
def validPositionSet (ps : List ℤ) : Bool :=
  ps.contains (-1) && ps.contains 0 && ps.contains 1 &&
    ps.all (fun x => x == -1 || x == 0 || x == 1)

namespace TradingBacktest

/-- Mutable tracking variables of `apply_tp_sl` (`entry_price`,
`entry_position`, `profit_flag`); `entry_price = None` is modelled as `0`,
which the loop never reads before assigning. -/
structure AdjState where
  entry_price : ℚ
  entry_position : ℤ
  profit_flag : Bool
  deriving DecidableEq, Repr

/-- Initial tracking state of `apply_tp_sl`. -/
def initState : AdjState := ⟨0, 0, false⟩

/-- One iteration of the `apply_tp_sl` loop body: neutral bar resets the
window; a position change records a new entry; a holding bar runs the
profit check (arm, then force-close on the second touch) followed by the
independent loss check (immediate force-close). -/
def stepFixed (tp sl : ℚ) (s : AdjState) (price : ℚ) (pos : ℤ) :
    AdjState × ℤ :=
  if pos = 0 then
    ({ s with entry_position := 0, profit_flag := false }, pos)
  else if pos ≠ s.entry_position then
    ({ entry_price := price, entry_position := pos, profit_flag := false }, pos)
  else
    let pnl := pnlPct pos s.entry_price price
    let afterProfit :=
      if tp ≤ pnl then
        if s.profit_flag = false then
          ({ s with profit_flag := true }, pos)
        else
          ({ s with entry_position := 0, profit_flag := false }, 0)
      else (s, pos)
    if pnl ≤ -sl then
      ({ afterProfit.1 with entry_position := 0 }, 0)
    else afterProfit

/-- The `apply_tp_sl` scan over all bars, emitting `(timestamp, position)`
pairs for the `new_positions` series. -/
def runFixed (tp sl : ℚ) : AdjState → List Bar → List (ℕ × ℤ)
  | _, [] => []
  | s, b :: rest =>
    let r := stepFixed tp sl s b.close b.pos
    (b.ts, r.2) :: runFixed tp sl r.1 rest

/-- Embeds `TradingBacktest.apply_tp_sl`: DatetimeIndex check, position-set
assertion, then the adjustment scan. -/
def apply_tp_sl (hasDatetimeIndex : Bool) (tp sl : ℚ) (bars : List Bar) :
    Except String (List (ℕ × ℤ)) :=
  if hasDatetimeIndex = false then
    .error "The DataFrame index must be a DatetimeIndex"
  else if validPositionSet (bars.map Bar.pos) = false then
    .error "Positions must be -1 (Short), 0 (Neutral), 1 (Long) only"
  else
    .ok (runFixed tp sl initState bars)

/-- Mutable tracking variables of `apply_tp_sl_trailing`; the `None`
initial values are modelled as `0`, never read before assignment. -/
structure TrailState where
  max_price : ℚ
  min_price : ℚ
  trailing_sl : ℚ
  entry_price : ℚ
  entry_position : ℤ
  profit_flag : Bool
  deriving DecidableEq, Repr

/-- Initial tracking state of `apply_tp_sl_trailing`. -/
def initTrail : TrailState := ⟨0, 0, 0, 0, 0, false⟩

/-- One iteration of the `apply_tp_sl_trailing` loop body.  Note that the
neutral branch resets only `entry_position` (not `profit_flag`), and that
on entry the trailing stop is seeded `sl` percent below (long) or above
(short) the entry price.  A holding bar runs the profit check and then the
trailing-stop check / extreme update. -/
def stepTrailing (tp sl : ℚ) (s : TrailState) (price : ℚ) (pos : ℤ) :
    TrailState × ℤ :=
  if pos = 0 then
    ({ s with entry_position := 0 }, pos)
  else if pos ≠ s.entry_position then
    ({ max_price := price, min_price := price,
       trailing_sl :=
         if pos = 1 then price * (1 - sl / 100) else price * (1 + sl / 100),
       entry_price := price, entry_position := pos, profit_flag := false }, pos)
  else
    let pnl := pnlPct pos s.entry_price price
    let afterProfit :=
      if tp ≤ pnl then
        if s.profit_flag = false then
          ({ s with profit_flag := true }, pos)
        else
          ({ s with entry_position := 0, profit_flag := false }, 0)
      else (s, pos)
    if pos = 1 then
      if price ≤ s.trailing_sl then
        ({ afterProfit.1 with entry_position := 0 }, 0)
      else if s.max_price < price then
        ({ afterProfit.1 with
            max_price := price, trailing_sl := price * (1 - sl / 100) },
         afterProfit.2)
      else afterProfit
    else
      if s.trailing_sl ≤ price then
        ({ afterProfit.1 with entry_position := 0 }, 0)
      else if price < s.min_price then
        ({ afterProfit.1 with
            min_price := price, trailing_sl := price * (1 + sl / 100) },
         afterProfit.2)
      else afterProfit

/-- The `apply_tp_sl_trailing` scan over all bars. -/
def runTrailing (tp sl : ℚ) : TrailState → List Bar → List (ℕ × ℤ)
  | _, [] => []
  | s, b :: rest =>
    let r := stepTrailing tp sl s b.close b.pos
    (b.ts, r.2) :: runTrailing tp sl r.1 rest

/-- Embeds `TradingBacktest.apply_tp_sl_trailing`: same validation as the fixed
variant, then the trailing scan. -/
def apply_tp_sl_trailing (hasDatetimeIndex : Bool) (tp sl : ℚ)
    (bars : List Bar) : Except String (List (ℕ × ℤ)) :=
  if hasDatetimeIndex = false then
    .error "The DataFrame index must be a DatetimeIndex"
  else if validPositionSet (bars.map Bar.pos) = false then
    .error "Positions must be -1 (Short), 0 (Neutral), 1 (Long) only"
  else
    .ok (runTrailing tp sl initTrail bars)

end TradingBacktest

/-! ### Generic list operations mirroring the pandas primitives used. -/

/-- Insert a key into an ascending duplicate-free list, keeping it
ascending and duplicate-free (models the key set of a pandas groupby). -/
def insertSorted (x : ℕ) : List ℕ → List ℕ
  | [] => [x]
  | y :: ys =>
    if x < y then x :: y :: ys
    else if x = y then y :: ys
    else y :: insertSorted x ys

/-- Ascending duplicate-free list of the keys occurring in `l`. -/
def sortedUnique (l : List ℕ) : List ℕ :=
  l.foldl (fun acc x => insertSorted x acc) []

/-- Sum of the values of all rows carrying a given key. -/
def sumForDate (d : ℕ) (rows : List (ℕ × ℚ)) : ℚ :=
  ((rows.filter (fun r => r.1 = d)).map Prod.snd).sum

/-- Embeds `groupby(key).sum()`: one `(key, summed value)` entry per distinct key,
keys in ascending order. -/
def groupbySum (rows : List (ℕ × ℚ)) : List (ℕ × ℚ) :=
  (sortedUnique (rows.map Prod.fst)).map (fun d => (d, sumForDate d rows))

/-- Inclusive running sum (pandas `cumsum`) with accumulator. -/
def cumsumFrom (acc : ℚ) : List ℚ → List ℚ
  | [] => []
  | x :: xs => (acc + x) :: cumsumFrom (acc + x) xs

/-- Inclusive running sum (pandas `cumsum`). -/
def cumsumQ (l : List ℚ) : List ℚ := cumsumFrom 0 l

/-- Inclusive running sum over the values of key/value rows, keys kept. -/
def cumsumSndFrom (acc : ℚ) : List (ℕ × ℚ) → List (ℕ × ℚ)
  | [] => []
  | (d, v) :: xs => (d, acc + v) :: cumsumSndFrom (acc + v) xs

/-- Embeds `Series.cumsum()` on a key-indexed series. -/
def cumsumSnd (l : List (ℕ × ℚ)) : List (ℕ × ℚ) := cumsumSndFrom 0 l

/-- Tail of `Series.diff()` given the previous value. -/
def diffFrom (prev : ℚ) : List (ℕ × ℚ) → List (ℕ × ℚ)
  | [] => []
  | (d, v) :: xs => (d, v - prev) :: diffFrom v xs

/-- Embeds `Series.diff().dropna()`: consecutive differences; the first entry
(`NaN` after `diff`) is dropped. -/
def diffDropna : List (ℕ × ℚ) → List (ℕ × ℚ)
  | [] => []
  | (_, v) :: xs => diffFrom v xs

/-- Embeds `Series.max()` on a nonempty series (`0` on the empty list, a case the
theorems do not rely on). -/
def listMax : List ℚ → ℚ
  | [] => 0
  | x :: xs => xs.foldl max x

/-- Embeds `Series.min()` on a nonempty series (`0` on the empty list). -/
def listMin : List ℚ → ℚ
  | [] => 0
  | x :: xs => xs.foldl min x

/-- Running maximum (pandas `cummax`) with accumulator. -/
def cummaxFrom (acc : ℚ) : List ℚ → List ℚ
  | [] => []
  | x :: xs => max acc x :: cummaxFrom (max acc x) xs

/-- Running maximum (pandas `cummax`). -/
def cummax : List ℚ → List ℚ
  | [] => []
  | x :: xs => x :: cummaxFrom x xs

/-- Embeds `Series.cumsum().shift().fillna(0)`: previous-row inclusive cumulative
sum, `0` on the first row. -/
def shiftFill : List ℚ → List ℚ
  | [] => []
  | x :: xs => 0 :: (x :: xs).dropLast

/-- Result of a NumPy float division: a finite value, or `nan` / signed
infinity when the denominator is zero. -/
inductive NpVal where
  | val : ℚ → NpVal
  | nan : NpVal
  | neginf : NpVal
  | posinf : NpVal
  deriving DecidableEq, Repr

/-- NumPy division `a / b` for exact operands. -/
def npDiv (a b : ℚ) : NpVal :=
  if b = 0 then
    if 0 < a then .posinf else if a < 0 then .neginf else .nan
  else .val (a / b)

/-! ### PnL accounting shared by both backtest classes. -/

/-- Embeds `close.diff().shift(-1) * position` with the trailing `NaN` filled to 0:
per-bar raw PnL. -/
def pnlRawValues : List Bar → List ℚ
  | [] => []
  | [_] => [0]
  | b :: b2 :: rest => (b2.close - b.close) * (b.pos : ℚ) :: pnlRawValues (b2 :: rest)

namespace TradingBacktest

/-- Per-bar raw-PnL rows keyed by the bar's `date` column
(`TradingBacktest` implements only the `raw` pnl type). -/
def pnlRows (bars : List Bar) : List (ℕ × ℚ) :=
  (bars.map Bar.date).zip (pnlRawValues bars)

/-- Embeds `TradingBacktest.compute_daily_pnl`: per-date sum of the raw PnL
column, grouped by the `date` column. -/
def compute_daily_pnl (bars : List Bar) : List (ℕ × ℚ) :=
  groupbySum (pnlRows bars)

/-- The `capital_required` column of
`TradingBacktest.estimate_minimum_capital`:
`|position| * close - cumulative_pnl` with the inclusive cumulative sum. -/
def capital_required (bars : List Bar) : List ℚ :=
  List.zipWith (fun b c => |(b.pos : ℚ)| * b.close - c) bars
    (cumsumQ (pnlRawValues bars))

/-- Embeds `TradingBacktest.estimate_minimum_capital`:
`max(capital_required.max(), 0)`. -/
def estimate_minimum_capital (bars : List Bar) : ℚ :=
  max (listMax (capital_required bars)) 0

/-- Embeds `TradingBacktest.compute_pnl_percentage`: `daily_pnl / min_capital`
when `min_capital != 0`, the `NaN` sentinel (here `none`) otherwise. -/
def compute_pnl_percentage (bars : List Bar) : Option (List (ℕ × ℚ)) :=
  let mc := estimate_minimum_capital bars
  if mc = 0 then none
  else some ((compute_daily_pnl bars).map (fun r => (r.1, r.2 / mc)))

/-- The minimum of the `cumulative - peak` drawdown series of
`TradingBacktest.max_drawdown`. -/
def drawdownMin (bars : List Bar) : ℚ :=
  let cum := cumsumQ ((compute_daily_pnl bars).map Prod.snd)
  listMin (List.zipWith (fun a b => a - b) cum (cummax cum))

/-- Embeds `TradingBacktest.max_drawdown`: worst drawdown of cumulative daily PnL
divided (with NumPy float semantics) by the minimum-capital estimate. -/
def max_drawdown (bars : List Bar) : NpVal :=
  npDiv (drawdownMin bars) (estimate_minimum_capital bars)

end TradingBacktest

namespace Backtest_Derivates

/-- Per-contract transaction fee constant (`2700 / 100000`). -/
def transactionFeeRate : ℚ := 2700 / 100000

/-- Per-contract overnight fee constant (`2550 / 100000`). -/
def overnightFeeRate : ℚ := 2550 / 100000

/-- Embeds `total_fee` for every bar after the first, given the previous bar:
`|position.diff()| * transaction_fee` plus the overnight fee when the
position is long and the calendar date changed. -/
def feesAfter (prev : Bar) : List Bar → List ℚ
  | [] => []
  | b :: rest =>
    (|((b.pos : ℚ)) - (prev.pos : ℚ)| * transactionFeeRate +
      (if 0 < b.pos ∧ b.date ≠ prev.date then overnightFeeRate else 0)) ::
    feesAfter b rest

/-- The `total_fee` column: the first bar has transaction fee `NaN → 0`
and its `date != date.shift()` comparison is true, so it pays the
overnight fee exactly when long. -/
def totalFees : List Bar → List ℚ
  | [] => []
  | b :: rest =>
    (0 + (if 0 < b.pos then overnightFeeRate else 0)) :: feesAfter b rest

/-- PnL accounting mode selected at construction. -/
inductive PnlType where
  | raw : PnlType
  | after_fees : PnlType
  deriving DecidableEq, Repr

/-- The selected per-bar PnL column: `pnl_raw`, or
`pnl_after_fees = pnl_raw - total_fee`. -/
def pnlValues (t : PnlType) (bars : List Bar) : List ℚ :=
  match t with
  | .raw => pnlRawValues bars
  | .after_fees => List.zipWith (fun a b => a - b) (pnlRawValues bars) (totalFees bars)

/-- Per-bar PnL rows of the selected column keyed by calendar date
(`groupby(self.df.index.date)`). -/
def pnlRows (t : PnlType) (bars : List Bar) : List (ℕ × ℚ) :=
  (bars.map Bar.date).zip (pnlValues t bars)

/-- Embeds `Backtest_Derivates.daily_PNL`: per-date sums of the selected PnL
column followed by `cumsum()` — a running total across dates. -/
def daily_PNL (t : PnlType) (bars : List Bar) : List (ℕ × ℚ) :=
  cumsumSnd (groupbySum (pnlRows t bars))

/-- The `capital_required` column of
`Backtest_Derivates.estimate_minimum_capital`: the cumulative PnL term is
`cumsum().shift().fillna(0)`, the one-bar-shifted cumulative sum. -/
def capital_required (t : PnlType) (bars : List Bar) : List ℚ :=
  List.zipWith (fun b c => |(b.pos : ℚ)| * b.close - c) bars
    (shiftFill (cumsumQ (pnlValues t bars)))

/-- Embeds `Backtest_Derivates.estimate_minimum_capital`:
`max(capital_required.max(), 0)`. -/
def estimate_minimum_capital (t : PnlType) (bars : List Bar) : ℚ :=
  max (listMax (capital_required t bars)) 0

end Backtest_Derivates

namespace Metrics

/-- Embeds `Metrics.__init__` derives its working series as
`backtest.daily_PNL().diff().dropna()`. -/
def daily_pnl (t : Backtest_Derivates.PnlType) (bars : List Bar) :
    List (ℕ × ℚ) :=
  diffDropna (Backtest_Derivates.daily_PNL t bars)

/-- Embeds `Metrics.win_rate`: positive days over total days of the working
series, `0` when the series is empty. -/
def win_rate (t : Backtest_Derivates.PnlType) (bars : List Bar) : ℚ :=
  let d := daily_pnl t bars
  let wins := (d.filter (fun r => 0 < r.2)).length
  if 0 < d.length then (wins : ℚ) / (d.length : ℚ) else 0

end Metrics

/-- Fallback bar for positional lookups. -/
def dummyBar : Bar := ⟨0, 0, 0, 0⟩

namespace TradingBacktest

/-- Returns `true` when the `apply_tp_sl` scan never meets a trigger condition:
every holding bar keeps its PnL% strictly below `tp` and strictly above
`-sl` (evaluated against the same threaded tracking state the loop
uses). -/
def fixedCalm (tp sl : ℚ) : AdjState → List Bar → Bool
  | _, [] => true
  | s, b :: rest =>
    decide (b.pos = 0 ∨ b.pos ≠ s.entry_position ∨
      (pnlPct b.pos s.entry_price b.close < tp ∧
        -sl < pnlPct b.pos s.entry_price b.close)) &&
    fixedCalm tp sl (stepFixed tp sl s b.close b.pos).1 rest

/-- Returns `true` when the `apply_tp_sl_trailing` scan never meets a trigger
condition: every holding bar keeps its PnL% strictly below `tp` and its
close strictly on the safe side of the threaded trailing stop. -/
def trailingCalm (tp sl : ℚ) : TrailState → List Bar → Bool
  | _, [] => true
  | s, b :: rest =>
    decide (b.pos = 0 ∨ b.pos ≠ s.entry_position ∨
      (pnlPct b.pos s.entry_price b.close < tp ∧
        (if b.pos = 1 then s.trailing_sl < b.close else b.close < s.trailing_sl))) &&
    trailingCalm tp sl (stepTrailing tp sl s b.close b.pos).1 rest

end TradingBacktest

/-- A small series containing all three position values, used to
instantiate the adjuster theorems: long entry, neutral, short entry. -/
def adjWitnessBars : List Bar := [⟨0, 0, 100, 1⟩, ⟨1, 0, 101, 0⟩, ⟨2, 0, 102, -1⟩]

/-- A one-bar all-flat series: its minimum-capital estimate is `0`. -/
def flatBars : List Bar := [⟨0, 1, 100, 0⟩]

/-! ### Theorems settling the claims. -/

open TradingBacktest Backtest_Derivates in
/-- Claim C1: for the fixed-threshold adjuster on a holding bar, the first
bar with PnL% at or above `tp` only arms the profit flag and leaves the
output position unchanged; a subsequent holding touch while armed forces
the position to 0 and resets `entry_position` and the flag; and a holding
bar with PnL% at or below `-sl` immediately forces the position to 0 and
resets `entry_position`. -/
theorem c1_fixed_threshold_step (tp sl : ℚ) (s : TradingBacktest.AdjState)
    (price : ℚ) (pos : ℤ) (htp : 0 < tp) (hsl : 0 < sl)
    (hpos : pos ≠ 0) (hhold : pos = s.entry_position) :
    (tp ≤ pnlPct pos s.entry_price price → s.profit_flag = false →
      TradingBacktest.stepFixed tp sl s price pos =
        ({ s with profit_flag := true }, pos)) ∧
    (tp ≤ pnlPct pos s.entry_price price → s.profit_flag = true →
      TradingBacktest.stepFixed tp sl s price pos =
        ({ s with entry_position := 0, profit_flag := false }, 0)) ∧
    (pnlPct pos s.entry_price price ≤ -sl →
      TradingBacktest.stepFixed tp sl s price pos =
        ({ s with entry_position := 0 }, 0)) := by
  have hne : ¬ (pos ≠ s.entry_position) := not_not_intro hhold
  refine ⟨?_, ?_, ?_⟩
  · intro hp hflag
    have hnl : ¬ (pnlPct pos s.entry_price price ≤ -sl) := by linarith
    simp [TradingBacktest.stepFixed, hpos, hne, hp, hflag, hnl]
  · intro hp hflag
    have hnl : ¬ (pnlPct pos s.entry_price price ≤ -sl) := by linarith
    simp [TradingBacktest.stepFixed, hpos, hne, hp, hflag, hnl]
  · intro hl
    by_cases hp : tp ≤ pnlPct pos s.entry_price price
    · exact absurd hl (by linarith)
    · simp [TradingBacktest.stepFixed, hpos, hne, hp, hl]

/-- Witness for C1 at concrete inputs: arming at +4% with tp = 3, the
armed second touch, and the immediate −10% loss stop with sl = 5. -/
theorem c1_fixed_threshold_step_witness :
    TradingBacktest.stepFixed 3 5 ⟨100, 1, false⟩ 104 1 = (⟨100, 1, true⟩, 1) ∧
    TradingBacktest.stepFixed 3 5 ⟨100, 1, true⟩ 104 1 = (⟨100, 0, false⟩, 0) ∧
    TradingBacktest.stepFixed 3 5 ⟨100, 1, false⟩ 90 1 = (⟨100, 0, false⟩, 0) :=
  ⟨(c1_fixed_threshold_step 3 5 ⟨100, 1, false⟩ 104 1 (by norm_num) (by norm_num)
      (by decide) rfl).1 (by norm_num [pnlPct]) rfl,
   (c1_fixed_threshold_step 3 5 ⟨100, 1, true⟩ 104 1 (by norm_num) (by norm_num)
      (by decide) rfl).2.1 (by norm_num [pnlPct]) rfl,
   (c1_fixed_threshold_step 3 5 ⟨100, 1, false⟩ 90 1 (by norm_num) (by norm_num)
      (by decide) rfl).2.2 (by norm_num [pnlPct])⟩

/-- Claim C2: the trailing adjuster records `trailing_extreme = entry_price`
and seeds the stop at `entry_price * (1 ∓ sl/100)` on entry; on a long
holding bar a close at or below the stop forces the position flat and
resets `entry_position`, otherwise a close above the extreme ratchets the
extreme and the stop (mirrored for short); and on prices `[100,110,104]`
with `sl = 5` the stop is 95, then 104.5, and the third bar is forced
flat. -/
theorem c2_trailing_step (tp sl : ℚ) (s : TradingBacktest.TrailState)
    (price : ℚ) (pos : ℤ) :
    (pos ≠ 0 → pos ≠ s.entry_position → pos = 1 →
      TradingBacktest.stepTrailing tp sl s price pos =
        ({ max_price := price, min_price := price,
           trailing_sl := price * (1 - sl / 100), entry_price := price,
           entry_position := pos, profit_flag := false }, pos)) ∧
    (pos ≠ 0 → pos ≠ s.entry_position → pos = -1 →
      TradingBacktest.stepTrailing tp sl s price pos =
        ({ max_price := price, min_price := price,
           trailing_sl := price * (1 + sl / 100), entry_price := price,
           entry_position := pos, profit_flag := false }, pos)) ∧
    (pos = 1 → s.entry_position = 1 → price ≤ s.trailing_sl →
      (TradingBacktest.stepTrailing tp sl s price pos).2 = 0 ∧
      (TradingBacktest.stepTrailing tp sl s price pos).1.entry_position = 0) ∧
    (pos = 1 → s.entry_position = 1 → ¬ price ≤ s.trailing_sl →
      s.max_price < price →
      (TradingBacktest.stepTrailing tp sl s price pos).1.max_price = price ∧
      (TradingBacktest.stepTrailing tp sl s price pos).1.trailing_sl =
        price * (1 - sl / 100)) ∧
    (pos = -1 → s.entry_position = -1 → s.trailing_sl ≤ price →
      (TradingBacktest.stepTrailing tp sl s price pos).2 = 0 ∧
      (TradingBacktest.stepTrailing tp sl s price pos).1.entry_position = 0) ∧
    (pos = -1 → s.entry_position = -1 → ¬ s.trailing_sl ≤ price →
      price < s.min_price →
      (TradingBacktest.stepTrailing tp sl s price pos).1.min_price = price ∧
      (TradingBacktest.stepTrailing tp sl s price pos).1.trailing_sl =
        price * (1 + sl / 100)) ∧
    TradingBacktest.runTrailing 100 5 TradingBacktest.initTrail
        [⟨0, 0, 100, 1⟩, ⟨1, 0, 110, 1⟩, ⟨2, 0, 104, 1⟩] =
      [(0, 1), (1, 1), (2, 0)] ∧
    (TradingBacktest.stepTrailing 100 5 TradingBacktest.initTrail 100 1).1 =
      ⟨100, 100, 95, 100, 1, false⟩ ∧
    (TradingBacktest.stepTrailing 100 5
        (TradingBacktest.stepTrailing 100 5 TradingBacktest.initTrail 100 1).1
        110 1).1 = ⟨110, 100, 209 / 2, 100, 1, false⟩ := by
  refine ⟨?_, ?_, ?_, ?_, ?_, ?_,
    by norm_num [TradingBacktest.runTrailing, TradingBacktest.stepTrailing,
      pnlPct, TradingBacktest.initTrail],
    by norm_num [TradingBacktest.stepTrailing, TradingBacktest.initTrail],
    by norm_num [TradingBacktest.stepTrailing, TradingBacktest.initTrail,
      pnlPct]⟩
  · intro h0 hne h1
    subst h1
    simp [TradingBacktest.stepTrailing, hne]
  · intro h0 hne h1
    subst h1
    simp [TradingBacktest.stepTrailing, hne]
  · intro h1 hep hsl
    subst h1
    simp [TradingBacktest.stepTrailing, hep, hsl]
  · intro h1 hep hsl hmax
    subst h1
    simp [TradingBacktest.stepTrailing, hep, hsl, hmax]
  · intro h1 hep hsl
    subst h1
    simp [TradingBacktest.stepTrailing, hep, hsl]
  · intro h1 hep hsl hmin
    subst h1
    simp [TradingBacktest.stepTrailing, hep, hsl, hmin]

/-- Witness for C2 at concrete inputs: long entry at 100 with sl = 5 seeds
the stop at 95, and the 104 bar against a 104.5 stop is forced flat. -/
theorem c2_trailing_step_witness :
    TradingBacktest.stepTrailing 100 5 TradingBacktest.initTrail 100 1 =
      (⟨100, 100, 95, 100, 1, false⟩, 1) ∧
    (TradingBacktest.stepTrailing 100 5 ⟨110, 100, 209 / 2, 100, 1, false⟩
        104 1).2 = 0 :=
  ⟨by
    have h := (c2_trailing_step 100 5 TradingBacktest.initTrail 100 1).1
      (by decide) (by decide) rfl
    rw [h]
    norm_num,
   ((c2_trailing_step 100 5 ⟨110, 100, 209 / 2, 100, 1, false⟩ 104 1).2.2.1
      rfl rfl (by norm_num)).1⟩

/-- Claim C3 (code bug): on Scenario A — prices `[100,102,104,90]`, all
positions long, `tp = 3`, `sl = 5`, a DatetimeIndex — the adjustment scan
itself yields `[1,1,1,0]` exactly as the claim states, but `apply_tp_sl`
never reaches it: the `set(positions.unique()) == {-1,0,1}` assertion
rejects the input because only the value `1` occurs, contradicting the
assertion's own "must be -1, 0, 1 only" message. -/
theorem c3_scenario_a_eval :
    TradingBacktest.runFixed 3 5 TradingBacktest.initState
        [⟨0, 0, 100, 1⟩, ⟨1, 0, 102, 1⟩, ⟨2, 0, 104, 1⟩, ⟨3, 0, 90, 1⟩] =
      [(0, 1), (1, 1), (2, 1), (3, 0)] ∧
    TradingBacktest.apply_tp_sl true 3 5
        [⟨0, 0, 100, 1⟩, ⟨1, 0, 102, 1⟩, ⟨2, 0, 104, 1⟩, ⟨3, 0, 90, 1⟩] =
      .error "Positions must be -1 (Short), 0 (Neutral), 1 (Long) only" := by
  constructor
  · norm_num [TradingBacktest.runFixed, TradingBacktest.stepFixed, pnlPct,
      TradingBacktest.initState]
  · norm_num [TradingBacktest.apply_tp_sl, validPositionSet]

/-- Claim C4 (code bug): an input whose positions all lie in `{-1,0,1}`
(here `[1,1,0,0]`) and whose index is a chronological DatetimeIndex is
nevertheless rejected by both adjusters, because the shared assertion
demands that the set of distinct position values *equal* `{-1,0,1}` rather
than be contained in it — contradicting its own "must be -1, 0, 1 only"
message and the documented precondition. -/
theorem c4_validation_eval :
    ([(⟨0, 0, 100, 1⟩ : Bar), ⟨1, 0, 102, 1⟩, ⟨2, 0, 104, 0⟩,
        ⟨3, 0, 90, 0⟩].all fun b => b.pos == -1 || b.pos == 0 || b.pos == 1) =
      true ∧
    TradingBacktest.apply_tp_sl true 3 5
        [⟨0, 0, 100, 1⟩, ⟨1, 0, 102, 1⟩, ⟨2, 0, 104, 0⟩, ⟨3, 0, 90, 0⟩] =
      .error "Positions must be -1 (Short), 0 (Neutral), 1 (Long) only" ∧
    TradingBacktest.apply_tp_sl_trailing true 3 5
        [⟨0, 0, 100, 1⟩, ⟨1, 0, 102, 1⟩, ⟨2, 0, 104, 0⟩, ⟨3, 0, 90, 0⟩] =
      .error "Positions must be -1 (Short), 0 (Neutral), 1 (Long) only" := by
  refine ⟨by decide, ?_, ?_⟩
  · norm_num [TradingBacktest.apply_tp_sl, validPositionSet]
  · norm_num [TradingBacktest.apply_tp_sl_trailing, validPositionSet]

namespace TradingBacktest

/-- Each loop iteration of `apply_tp_sl` emits the input position or 0. -/
theorem stepFixed_snd (tp sl : ℚ) (s : AdjState) (price : ℚ) (pos : ℤ) :
    (stepFixed tp sl s price pos).2 = pos ∨
    (stepFixed tp sl s price pos).2 = 0 := by
  unfold stepFixed
  split_ifs <;> simp
  all_goals split_ifs <;> simp

/-- Each loop iteration of `apply_tp_sl_trailing` emits the input position
or 0. -/
theorem stepTrailing_snd (tp sl : ℚ) (s : TrailState) (price : ℚ) (pos : ℤ) :
    (stepTrailing tp sl s price pos).2 = pos ∨
    (stepTrailing tp sl s price pos).2 = 0 := by
  unfold stepTrailing
  split_ifs <;> simp
  all_goals split_ifs <;> simp

/-- The fixed-variant scan preserves the series length. -/
theorem runFixed_length (tp sl : ℚ) (bars : List Bar) :
    ∀ s : AdjState, (runFixed tp sl s bars).length = bars.length := by
  induction bars with
  | nil => intro s; rfl
  | cons b rest ih => intro s; simp [runFixed, ih]

/-- The fixed-variant scan preserves the timestamps, in order. -/
theorem runFixed_map_fst (tp sl : ℚ) (bars : List Bar) :
    ∀ s : AdjState, (runFixed tp sl s bars).map Prod.fst = bars.map Bar.ts := by
  induction bars with
  | nil => intro s; rfl
  | cons b rest ih => intro s; simp [runFixed, ih]

/-- Positionally, each fixed-variant output equals the input position at
the same index or is 0. -/
theorem runFixed_getD (tp sl : ℚ) (bars : List Bar) :
    ∀ (s : AdjState) (i : ℕ),
      ((runFixed tp sl s bars).getD i (0, 0)).2 = (bars.getD i dummyBar).pos ∨
      ((runFixed tp sl s bars).getD i (0, 0)).2 = 0 := by
  induction bars with
  | nil => intro s i; right; simp [runFixed, dummyBar]
  | cons b rest ih =>
    intro s i
    cases i with
    | zero => simpa [runFixed] using stepFixed_snd tp sl s b.close b.pos
    | succ n => simpa [runFixed] using ih (stepFixed tp sl s b.close b.pos).1 n

/-- Every fixed-variant output value is some bar's input position or 0. -/
theorem runFixed_mem (tp sl : ℚ) (bars : List Bar) :
    ∀ (s : AdjState) (p : ℕ × ℤ), p ∈ runFixed tp sl s bars →
      (∃ b ∈ bars, p.2 = b.pos) ∨ p.2 = 0 := by
  induction bars with
  | nil => intro s p h; cases h
  | cons b rest ih =>
    intro s p h
    rcases List.mem_cons.1 h with h0 | h0
    · rcases stepFixed_snd tp sl s b.close b.pos with h1 | h1
      · exact Or.inl ⟨b, List.mem_cons_self b rest, by rw [h0]; exact h1⟩
      · exact Or.inr (by rw [h0]; exact h1)
    · rcases ih (stepFixed tp sl s b.close b.pos).1 p h0 with ⟨b', hb', he⟩ | he
      · exact Or.inl ⟨b', List.mem_cons_of_mem b hb', he⟩
      · exact Or.inr he

/-- The trailing-variant scan preserves the series length. -/
theorem runTrailing_length (tp sl : ℚ) (bars : List Bar) :
    ∀ s : TrailState, (runTrailing tp sl s bars).length = bars.length := by
  induction bars with
  | nil => intro s; rfl
  | cons b rest ih => intro s; simp [runTrailing, ih]

/-- The trailing-variant scan preserves the timestamps, in order. -/
theorem runTrailing_map_fst (tp sl : ℚ) (bars : List Bar) :
    ∀ s : TrailState,
      (runTrailing tp sl s bars).map Prod.fst = bars.map Bar.ts := by
  induction bars with
  | nil => intro s; rfl
  | cons b rest ih => intro s; simp [runTrailing, ih]

/-- Positionally, each trailing-variant output equals the input position
at the same index or is 0. -/
theorem runTrailing_getD (tp sl : ℚ) (bars : List Bar) :
    ∀ (s : TrailState) (i : ℕ),
      ((runTrailing tp sl s bars).getD i (0, 0)).2 = (bars.getD i dummyBar).pos ∨
      ((runTrailing tp sl s bars).getD i (0, 0)).2 = 0 := by
  induction bars with
  | nil => intro s i; right; simp [runTrailing, dummyBar]
  | cons b rest ih =>
    intro s i
    cases i with
    | zero => simpa [runTrailing] using stepTrailing_snd tp sl s b.close b.pos
    | succ n =>
      simpa [runTrailing] using ih (stepTrailing tp sl s b.close b.pos).1 n

/-- Every trailing-variant output value is some bar's input position or 0. -/
theorem runTrailing_mem (tp sl : ℚ) (bars : List Bar) :
    ∀ (s : TrailState) (p : ℕ × ℤ), p ∈ runTrailing tp sl s bars →
      (∃ b ∈ bars, p.2 = b.pos) ∨ p.2 = 0 := by
  induction bars with
  | nil => intro s p h; cases h
  | cons b rest ih =>
    intro s p h
    rcases List.mem_cons.1 h with h0 | h0
    · rcases stepTrailing_snd tp sl s b.close b.pos with h1 | h1
      · exact Or.inl ⟨b, List.mem_cons_self b rest, by rw [h0]; exact h1⟩
      · exact Or.inr (by rw [h0]; exact h1)
    · rcases ih (stepTrailing tp sl s b.close b.pos).1 p h0 with ⟨b', hb', he⟩ | he
      · exact Or.inl ⟨b', List.mem_cons_of_mem b hb', he⟩
      · exact Or.inr he

/-- A successful `apply_tp_sl` returns exactly the scan result. -/
theorem apply_tp_sl_ok (tp sl : ℚ) (bars : List Bar) (out : List (ℕ × ℤ))
    (h : apply_tp_sl true tp sl bars = .ok out) :
    out = runFixed tp sl initState bars := by
  unfold apply_tp_sl at h
  by_cases hv : validPositionSet (bars.map Bar.pos) = false
  · simp [hv] at h
  · simp [hv] at h
    exact h.symm

/-- A successful `apply_tp_sl_trailing` returns exactly the scan result. -/
theorem apply_tp_sl_trailing_ok (tp sl : ℚ) (bars : List Bar)
    (out : List (ℕ × ℤ))
    (h : apply_tp_sl_trailing true tp sl bars = .ok out) :
    out = runTrailing tp sl initTrail bars := by
  unfold apply_tp_sl_trailing at h
  by_cases hv : validPositionSet (bars.map Bar.pos) = false
  · simp [hv] at h
  · simp [hv] at h
    exact h.symm

end TradingBacktest

/-- Claim C5: for positions within `{-1,0,1}` and positive thresholds,
whatever position series either adjuster returns has the input's length
and timestamps, takes values only in `{-1,0,1}`, and differs from the
input only by bars replaced with 0. -/
theorem c5_adjuster_invariants (tp sl : ℚ) (bars : List Bar)
    (htp : 0 < tp) (hsl : 0 < sl)
    (hvals : ∀ b ∈ bars, b.pos = -1 ∨ b.pos = 0 ∨ b.pos = 1) :
    (∀ out, TradingBacktest.apply_tp_sl true tp sl bars = .ok out →
      out.length = bars.length ∧
      out.map Prod.fst = bars.map Bar.ts ∧
      (∀ p ∈ out, p.2 = -1 ∨ p.2 = 0 ∨ p.2 = 1) ∧
      (∀ i, (out.getD i (0, 0)).2 = (bars.getD i dummyBar).pos ∨
        (out.getD i (0, 0)).2 = 0)) ∧
    (∀ out, TradingBacktest.apply_tp_sl_trailing true tp sl bars = .ok out →
      out.length = bars.length ∧
      out.map Prod.fst = bars.map Bar.ts ∧
      (∀ p ∈ out, p.2 = -1 ∨ p.2 = 0 ∨ p.2 = 1) ∧
      (∀ i, (out.getD i (0, 0)).2 = (bars.getD i dummyBar).pos ∨
        (out.getD i (0, 0)).2 = 0)) := by
  constructor
  · intro out h
    rw [TradingBacktest.apply_tp_sl_ok tp sl bars out h]
    refine ⟨TradingBacktest.runFixed_length tp sl bars _,
      TradingBacktest.runFixed_map_fst tp sl bars _, ?_,
      fun i => TradingBacktest.runFixed_getD tp sl bars _ i⟩
    intro p hp
    rcases TradingBacktest.runFixed_mem tp sl bars _ p hp with ⟨b, hb, he⟩ | he
    · rw [he]; exact hvals b hb
    · exact Or.inr (Or.inl he)
  · intro out h
    rw [TradingBacktest.apply_tp_sl_trailing_ok tp sl bars out h]
    refine ⟨TradingBacktest.runTrailing_length tp sl bars _,
      TradingBacktest.runTrailing_map_fst tp sl bars _, ?_,
      fun i => TradingBacktest.runTrailing_getD tp sl bars _ i⟩
    intro p hp
    rcases TradingBacktest.runTrailing_mem tp sl bars _ p hp with ⟨b, hb, he⟩ | he
    · rw [he]; exact hvals b hb
    · exact Or.inr (Or.inl he)

/-- Witness for C5: the invariants instantiated on a concrete three-bar
series containing all three position values. -/
theorem c5_adjuster_invariants_witness :
    ([((0 : ℕ), (1 : ℤ)), (1, 0), (2, -1)] : List (ℕ × ℤ)).length =
      adjWitnessBars.length :=
  ((c5_adjuster_invariants 3 5 adjWitnessBars (by norm_num) (by norm_num)
      (by decide)).1 [(0, 1), (1, 0), (2, -1)]
      (by norm_num [TradingBacktest.apply_tp_sl, validPositionSet,
        TradingBacktest.runFixed, TradingBacktest.stepFixed, pnlPct,
        TradingBacktest.initState, adjWitnessBars])).1

namespace TradingBacktest

/-- When no trigger condition is ever met, the fixed-variant scan copies
the input positions unchanged. -/
theorem runFixed_calm_id (tp sl : ℚ) (bars : List Bar) :
    ∀ s : AdjState, fixedCalm tp sl s bars = true →
      runFixed tp sl s bars = bars.map (fun b => (b.ts, b.pos)) := by
  induction bars with
  | nil => intro s _; rfl
  | cons b rest ih =>
    intro s h
    simp only [fixedCalm, Bool.and_eq_true, decide_eq_true_eq] at h
    obtain ⟨hc, hrest⟩ := h
    simp only [runFixed, List.map_cons]
    rw [ih _ hrest]
    have hout : (stepFixed tp sl s b.close b.pos).2 = b.pos := by
      rcases hc with h0 | hne | ⟨hlt, hgt⟩
      · simp [stepFixed, h0]
      · by_cases hz : b.pos = 0
        · simp [stepFixed, hz]
        · simp [stepFixed, hz, hne]
      · by_cases hz : b.pos = 0
        · simp [stepFixed, hz]
        · by_cases hne2 : b.pos ≠ s.entry_position
          · simp [stepFixed, hz, hne2]
          · simp [stepFixed, hz, hne2, not_le.2 hlt, not_le.2 hgt]
    rw [hout]

/-- When no trigger condition is ever met, the trailing-variant scan
copies the input positions unchanged. -/
theorem runTrailing_calm_id (tp sl : ℚ) (bars : List Bar) :
    ∀ s : TrailState, trailingCalm tp sl s bars = true →
      runTrailing tp sl s bars = bars.map (fun b => (b.ts, b.pos)) := by
  induction bars with
  | nil => intro s _; rfl
  | cons b rest ih =>
    intro s h
    simp only [trailingCalm, Bool.and_eq_true, decide_eq_true_eq] at h
    obtain ⟨hc, hrest⟩ := h
    simp only [runTrailing, List.map_cons]
    rw [ih _ hrest]
    have hout : (stepTrailing tp sl s b.close b.pos).2 = b.pos := by
      rcases hc with h0 | hne | ⟨hlt, hcond⟩
      · simp [stepTrailing, h0]
      · by_cases hz : b.pos = 0
        · simp [stepTrailing, hz]
        · simp [stepTrailing, hz, hne]
      · by_cases hz : b.pos = 0
        · simp [stepTrailing, hz]
        · by_cases hne2 : b.pos ≠ s.entry_position
          · simp [stepTrailing, hz, hne2]
          · by_cases hp1 : b.pos = 1
            · rw [if_pos hp1] at hcond
              rw [hp1] at hlt
              simp [stepTrailing, hz, hne2, hp1, not_le.2 hlt, not_le.2 hcond]
              split_ifs <;> simp
            · rw [if_neg hp1] at hcond
              simp [stepTrailing, hz, hne2, hp1, not_le.2 hlt, not_le.2 hcond]
              split_ifs <;> simp
    rw [hout]

end TradingBacktest

/-- Claim C6: for a valid input series on which, during every holding
window, the PnL% never reaches `tp` nor `-sl` (and, for the trailing
variant, the close never touches the threaded trailing stop), both
adjusters return the input position series unchanged, bar for bar. -/
theorem c6_identity (tp sl : ℚ) (bars : List Bar)
    (hvals : ∀ b ∈ bars, b.pos = -1 ∨ b.pos = 0 ∨ b.pos = 1)
    (hv : validPositionSet (bars.map Bar.pos) = true) :
    (TradingBacktest.fixedCalm tp sl TradingBacktest.initState bars = true →
      TradingBacktest.apply_tp_sl true tp sl bars =
        .ok (bars.map (fun b => (b.ts, b.pos)))) ∧
    (TradingBacktest.trailingCalm tp sl TradingBacktest.initTrail bars = true →
      TradingBacktest.apply_tp_sl_trailing true tp sl bars =
        .ok (bars.map (fun b => (b.ts, b.pos)))) := by
  constructor
  · intro hcalm
    unfold TradingBacktest.apply_tp_sl
    simp [hv]
    exact TradingBacktest.runFixed_calm_id tp sl bars _ hcalm
  · intro hcalm
    unfold TradingBacktest.apply_tp_sl_trailing
    simp [hv]
    exact TradingBacktest.runTrailing_calm_id tp sl bars _ hcalm

/-- Witness for C6: on a concrete series whose holding windows never touch
a threshold, the fixed adjuster returns the input unchanged. -/
theorem c6_identity_witness :
    TradingBacktest.apply_tp_sl true 3 5 adjWitnessBars =
      .ok (adjWitnessBars.map (fun b => (b.ts, b.pos))) :=
  (c6_identity 3 5 adjWitnessBars (by decide) (by decide)).1 (by decide)

/-- Membership in an `insertSorted` result. -/
theorem insertSorted_mem (x a : ℕ) :
    ∀ l : List ℕ, a ∈ insertSorted x l ↔ a = x ∨ a ∈ l := by
  intro l
  induction l with
  | nil => simp [insertSorted]
  | cons y ys ih =>
    simp only [insertSorted]
    split_ifs with h1 h2
    · simp [List.mem_cons]
    · subst h2
      simp [List.mem_cons]
    · simp only [List.mem_cons, ih]
      tauto

/-- Lemma: `insertSorted` preserves strict sortedness. -/
theorem insertSorted_pairwise (x : ℕ) :
    ∀ l : List ℕ, l.Pairwise (· < ·) →
      (insertSorted x l).Pairwise (· < ·) := by
  intro l
  induction l with
  | nil => intro _; simp [insertSorted]
  | cons y ys ih =>
    intro hp
    obtain ⟨hy, hys⟩ := List.pairwise_cons.1 hp
    simp only [insertSorted]
    split_ifs with h1 h2
    · refine List.pairwise_cons.2 ⟨?_, hp⟩
      intro b hb
      rcases List.mem_cons.1 hb with rfl | hb
      · exact h1
      · exact lt_trans h1 (hy b hb)
    · exact hp
    · have hyx : y < x := lt_of_le_of_ne (not_lt.1 h1) (fun he => h2 he.symm)
      refine List.pairwise_cons.2 ⟨?_, ih hys⟩
      intro b hb
      rcases (insertSorted_mem x b ys).1 hb with rfl | hb
      · exact hyx
      · exact hy b hb

/-- Membership after folding `insertSorted` over a list. -/
theorem foldl_insertSorted_mem (a : ℕ) :
    ∀ (l acc : List ℕ),
      (a ∈ l.foldl (fun acc x => insertSorted x acc) acc ↔ a ∈ acc ∨ a ∈ l) := by
  intro l
  induction l with
  | nil => simp
  | cons x xs ih =>
    intro acc
    simp only [List.foldl_cons]
    rw [ih]
    simp only [insertSorted_mem, List.mem_cons]
    tauto

/-- Folding `insertSorted` preserves strict sortedness. -/
theorem foldl_insertSorted_pairwise :
    ∀ (l acc : List ℕ), acc.Pairwise (· < ·) →
      (l.foldl (fun acc x => insertSorted x acc) acc).Pairwise (· < ·) := by
  intro l
  induction l with
  | nil => intro acc h; simpa using h
  | cons x xs ih =>
    intro acc h
    simpa using ih (insertSorted x acc) (insertSorted_pairwise x acc h)

/-- The distinct-key list contains exactly the keys of the input. -/
theorem sortedUnique_mem (a : ℕ) (l : List ℕ) :
    a ∈ sortedUnique l ↔ a ∈ l := by
  unfold sortedUnique
  rw [foldl_insertSorted_mem]
  simp

/-- The distinct-key list is strictly ascending. -/
theorem sortedUnique_pairwise (l : List ℕ) :
    (sortedUnique l).Pairwise (· < ·) :=
  foldl_insertSorted_pairwise l [] (List.Pairwise.nil)

/-- The raw-PnL column has one entry per bar. -/
theorem pnlRawValues_length :
    ∀ bars : List Bar, (pnlRawValues bars).length = bars.length := by
  intro bars
  induction bars with
  | nil => rfl
  | cons b rest ih =>
    cases rest with
    | nil => rfl
    | cons b2 rest2 => simpa [pnlRawValues] using ih

/-- The keys of a grouped sum are the sorted distinct input keys. -/
theorem groupbySum_map_fst (rows : List (ℕ × ℚ)) :
    (groupbySum rows).map Prod.fst = sortedUnique (rows.map Prod.fst) := by
  unfold groupbySum
  rw [List.map_map]
  show List.map (fun d => d) (sortedUnique (rows.map Prod.fst)) =
    sortedUnique (rows.map Prod.fst)
  simp

/-- Lemma: `cumsum` keeps the key column. -/
theorem cumsumSndFrom_map_fst :
    ∀ (l : List (ℕ × ℚ)) (acc : ℚ),
      (cumsumSndFrom acc l).map Prod.fst = l.map Prod.fst := by
  intro l
  induction l with
  | nil => intro acc; rfl
  | cons x xs ih =>
    intro acc
    obtain ⟨d, v⟩ := x
    simp [cumsumSndFrom, ih]

/-- Lemma: `cumsum` keeps the series length. -/
theorem cumsumSndFrom_length :
    ∀ (l : List (ℕ × ℚ)) (acc : ℚ), (cumsumSndFrom acc l).length = l.length := by
  intro l
  induction l with
  | nil => intro acc; rfl
  | cons x xs ih =>
    intro acc
    obtain ⟨d, v⟩ := x
    simp [cumsumSndFrom, ih]

/-- The `i`-th cumulative value is the sum of the first `i + 1` inputs. -/
theorem cumsumSndFrom_getD :
    ∀ (l : List (ℕ × ℚ)) (acc : ℚ) (i : ℕ), i < l.length →
      ((cumsumSndFrom acc l).map Prod.snd).getD i 0 =
        acc + ((l.map Prod.snd).take (i + 1)).sum := by
  intro l
  induction l with
  | nil =>
    intro acc i h
    simp at h
  | cons x xs ih =>
    intro acc i h
    obtain ⟨d, v⟩ := x
    cases i with
    | zero => simp [cumsumSndFrom]
    | succ n =>
      simp only [cumsumSndFrom, List.map_cons, List.getD_cons_succ,
        List.take_succ_cons, List.sum_cons]
      rw [ih (acc + v) n (by simpa using h)]
      ring

/-- Differencing undoes the cumulative sum, given the matching seed. -/
theorem diffFrom_cumsumSndFrom :
    ∀ (l : List (ℕ × ℚ)) (p : ℚ), diffFrom p (cumsumSndFrom p l) = l := by
  intro l
  induction l with
  | nil => intro p; rfl
  | cons x xs ih =>
    intro p
    obtain ⟨d, v⟩ := x
    simp [cumsumSndFrom, diffFrom, ih, add_sub_cancel_left]

/-- Lemma: `diff().dropna()` of a running total recovers the original series with
its first entry removed. -/
theorem diffDropna_cumsumSnd (l : List (ℕ × ℚ)) :
    diffDropna (cumsumSnd l) = l.drop 1 := by
  cases l with
  | nil => rfl
  | cons x xs =>
    obtain ⟨d, v⟩ := x
    simp [cumsumSnd, cumsumSndFrom, diffDropna, diffFrom_cumsumSndFrom]

/-- The date keys of stamped PnL rows are the bars' dates. -/
theorem pnlRows_map_fst (bars : List Bar) :
    (TradingBacktest.pnlRows bars).map Prod.fst = bars.map Bar.date := by
  unfold TradingBacktest.pnlRows
  rw [List.map_fst_zip]
  rw [pnlRawValues_length, List.length_map]

/-- Claim C7 counterexample: on a two-date series whose per-date raw PnL
is `[1, 0]`, `Backtest_Derivates.daily_PNL` returns the running total
`[1, 1]` — not the per-date sums `[1, 0]` that
`TradingBacktest.compute_daily_pnl` returns — so the two implementations
do not both return the per-date mapping. -/
theorem c7_counterexample :
    Backtest_Derivates.daily_PNL .raw [⟨0, 1, 10, 1⟩, ⟨1, 2, 11, 0⟩] =
      [(1, 1), (2, 1)] ∧
    TradingBacktest.compute_daily_pnl [⟨0, 1, 10, 1⟩, ⟨1, 2, 11, 0⟩] =
      [(1, 1), (2, 0)] ∧
    Backtest_Derivates.daily_PNL .raw [⟨0, 1, 10, 1⟩, ⟨1, 2, 11, 0⟩] ≠
      TradingBacktest.compute_daily_pnl [⟨0, 1, 10, 1⟩, ⟨1, 2, 11, 0⟩] := by
  refine ⟨?_, ?_, ?_⟩ <;>
    norm_num [Backtest_Derivates.daily_PNL, Backtest_Derivates.pnlRows,
      Backtest_Derivates.pnlValues, TradingBacktest.compute_daily_pnl,
      TradingBacktest.pnlRows, pnlRawValues, groupbySum, sortedUnique,
      insertSorted, sumForDate, cumsumSnd, cumsumSndFrom, List.filter]

/-- Claim C7, amended: `TradingBacktest.compute_daily_pnl` maps exactly
the calendar dates present in the input, in strictly ascending
(chronological) order, to that date's summed PnL, while
`Backtest_Derivates.daily_PNL` returns the same keys but with the running
total of the per-date sums: its `i`-th value is the sum of the first
`i + 1` per-date sums. -/
theorem c7_amended (bars : List Bar) :
    List.Pairwise (· < ·)
      ((TradingBacktest.compute_daily_pnl bars).map Prod.fst) ∧
    (∀ d : ℕ, d ∈ (TradingBacktest.compute_daily_pnl bars).map Prod.fst ↔
      d ∈ bars.map Bar.date) ∧
    (Backtest_Derivates.daily_PNL .raw bars).map Prod.fst =
      (TradingBacktest.compute_daily_pnl bars).map Prod.fst ∧
    (∀ i, i < (Backtest_Derivates.daily_PNL .raw bars).length →
      ((Backtest_Derivates.daily_PNL .raw bars).map Prod.snd).getD i 0 =
        (((TradingBacktest.compute_daily_pnl bars).map Prod.snd).take
          (i + 1)).sum) := by
  refine ⟨?_, ?_, ?_, ?_⟩
  · rw [TradingBacktest.compute_daily_pnl, groupbySum_map_fst]
    exact sortedUnique_pairwise _
  · intro d
    rw [TradingBacktest.compute_daily_pnl, groupbySum_map_fst,
      sortedUnique_mem, pnlRows_map_fst]
  · rw [Backtest_Derivates.daily_PNL, cumsumSnd, cumsumSndFrom_map_fst]
    rfl
  · intro i hi
    rw [Backtest_Derivates.daily_PNL, cumsumSnd] at hi ⊢
    rw [cumsumSndFrom_length] at hi
    rw [cumsumSndFrom_getD _ 0 i hi, zero_add]
    rfl

/-- Witness for C7's amended statement: on the two-date counterexample
series, the second `daily_PNL` value equals the sum of both per-date
sums. -/
theorem c7_amended_witness :
    ((Backtest_Derivates.daily_PNL .raw [⟨0, 1, 10, 1⟩, ⟨1, 2, 11, 0⟩]).map
        Prod.snd).getD 1 0 =
      (((TradingBacktest.compute_daily_pnl
          [⟨0, 1, 10, 1⟩, ⟨1, 2, 11, 0⟩]).map Prod.snd).take 2).sum :=
  (c7_amended [⟨0, 1, 10, 1⟩, ⟨1, 2, 11, 0⟩]).2.2.2 1
    (by norm_num [Backtest_Derivates.daily_PNL, Backtest_Derivates.pnlRows,
      Backtest_Derivates.pnlValues, pnlRawValues, groupbySum, sortedUnique,
      insertSorted, sumForDate, cumsumSnd, cumsumSndFrom, List.filter])

/-- A `foldl max` result dominates its seed. -/
theorem le_foldl_max : ∀ (l : List ℚ) (a : ℚ), a ≤ l.foldl max a := by
  intro l
  induction l with
  | nil => intro a; simp
  | cons x xs ih =>
    intro a
    exact le_trans (le_max_left a x) (ih (max a x))

/-- A `foldl max` result dominates every list element. -/
theorem mem_le_foldl_max :
    ∀ (l : List ℚ) (a x : ℚ), x ∈ l → x ≤ l.foldl max a := by
  intro l
  induction l with
  | nil => intro a x h; cases h
  | cons y ys ih =>
    intro a x h
    rcases List.mem_cons.1 h with rfl | h
    · exact le_trans (le_max_right a x) (le_foldl_max ys (max a x))
    · exact ih (max a y) x h

/-- A `foldl max` result is the seed or an element of the list. -/
theorem foldl_max_cases :
    ∀ (l : List ℚ) (a : ℚ), l.foldl max a = a ∨ l.foldl max a ∈ l := by
  intro l
  induction l with
  | nil => intro a; left; rfl
  | cons x xs ih =>
    intro a
    rcases ih (max a x) with h | h
    · rcases max_choice a x with hm | hm
      · left; simpa [hm] using h
      · right
        rw [List.foldl_cons, h, hm]
        exact List.mem_cons_self x xs
    · right
      exact List.mem_cons_of_mem x h

/-- Lemma: `Series.max()` dominates every element. -/
theorem le_listMax (l : List ℚ) (x : ℚ) (h : x ∈ l) : x ≤ listMax l := by
  cases l with
  | nil => cases h
  | cons y ys =>
    rcases List.mem_cons.1 h with rfl | h
    · exact le_foldl_max ys x
    · exact mem_le_foldl_max ys y x h

/-- Lemma: `Series.max()` is 0 (empty case) or an element of the series. -/
theorem listMax_cases (l : List ℚ) : listMax l = 0 ∨ listMax l ∈ l := by
  cases l with
  | nil => left; rfl
  | cons y ys =>
    rcases foldl_max_cases ys y with h | h
    · right
      simp only [listMax, h]
      exact List.mem_cons_self y ys
    · right
      exact List.mem_cons_of_mem y h

/-- The defining properties of `max(series.max(), 0)`. -/
theorem clampedMax_spec (L : List ℚ) :
    0 ≤ max (listMax L) 0 ∧ (∀ x ∈ L, x ≤ max (listMax L) 0) ∧
    (max (listMax L) 0 = 0 ∨ max (listMax L) 0 ∈ L) := by
  refine ⟨le_max_right _ _,
    fun x hx => le_trans (le_listMax L x hx) (le_max_left _ _), ?_⟩
  rcases le_total (listMax L) 0 with h | h
  · left; exact max_eq_right h
  · rw [max_eq_left h]
    exact listMax_cases L

/-- Claim C8: in both implementations the minimum-capital estimate is the
clamped maximum of the `capital_required` column — it is nonnegative,
dominates every per-bar capital requirement, and is either 0 or attained
at some bar — where the cumulative-PnL term is the inclusive cumulative
sum in `TradingBacktest` and the one-bar-shifted cumulative sum in
`Backtest_Derivates`. -/
theorem c8_minimum_capital (bars : List Bar)
    (t : Backtest_Derivates.PnlType) :
    (0 ≤ TradingBacktest.estimate_minimum_capital bars ∧
      (∀ x ∈ TradingBacktest.capital_required bars,
        x ≤ TradingBacktest.estimate_minimum_capital bars) ∧
      (TradingBacktest.estimate_minimum_capital bars = 0 ∨
        TradingBacktest.estimate_minimum_capital bars ∈
          TradingBacktest.capital_required bars)) ∧
    (0 ≤ Backtest_Derivates.estimate_minimum_capital t bars ∧
      (∀ x ∈ Backtest_Derivates.capital_required t bars,
        x ≤ Backtest_Derivates.estimate_minimum_capital t bars) ∧
      (Backtest_Derivates.estimate_minimum_capital t bars = 0 ∨
        Backtest_Derivates.estimate_minimum_capital t bars ∈
          Backtest_Derivates.capital_required t bars)) :=
  ⟨clampedMax_spec (TradingBacktest.capital_required bars),
   clampedMax_spec (Backtest_Derivates.capital_required t bars)⟩

/-- Witness for C8: on the three-bar series the first bar's capital
requirement (99) is dominated by the estimate. -/
theorem c8_minimum_capital_witness :
    (99 : ℚ) ≤ TradingBacktest.estimate_minimum_capital adjWitnessBars :=
  (c8_minimum_capital adjWitnessBars .raw).1.2.1 99
    (by norm_num [TradingBacktest.capital_required, pnlRawValues, cumsumQ,
      cumsumFrom, adjWitnessBars])

/-- Entries of `series - series.cummax()` are nonpositive (seeded form). -/
theorem zipWith_sub_cummaxFrom_nonpos :
    ∀ (l : List ℚ) (acc x : ℚ),
      x ∈ List.zipWith (fun a b => a - b) l (cummaxFrom acc l) → x ≤ 0 := by
  intro l
  induction l with
  | nil => intro acc x h; cases h
  | cons y ys ih =>
    intro acc x h
    rcases List.mem_cons.1 h with rfl | h
    · exact sub_nonpos.2 (le_max_right acc y)
    · exact ih (max acc y) x h

/-- Entries of the drawdown series `cum - cum.cummax()` are nonpositive. -/
theorem drawdown_entry_nonpos (l : List ℚ) (x : ℚ)
    (h : x ∈ List.zipWith (fun a b => a - b) l (cummax l)) : x ≤ 0 := by
  cases l with
  | nil => cases h
  | cons y ys =>
    rcases List.mem_cons.1 h with rfl | h
    · simp
    · exact zipWith_sub_cummaxFrom_nonpos ys y x h

/-- A `foldl min` result is dominated by its seed. -/
theorem foldl_min_le : ∀ (l : List ℚ) (a : ℚ), l.foldl min a ≤ a := by
  intro l
  induction l with
  | nil => intro a; simp
  | cons x xs ih =>
    intro a
    exact le_trans (ih (min a x)) (min_le_left a x)

/-- Lemma: `Series.min()` of a series of nonpositive values is nonpositive (and
0 on the empty series). -/
theorem listMin_nonpos (l : List ℚ) (h : ∀ x ∈ l, x ≤ 0) : listMin l ≤ 0 := by
  cases l with
  | nil => exact le_refl 0
  | cons y ys =>
    exact le_trans (foldl_min_le ys y) (h y (List.mem_cons_self y ys))

/-- The worst drawdown of cumulative daily PnL is never positive. -/
theorem drawdownMin_nonpos (bars : List Bar) :
    TradingBacktest.drawdownMin bars ≤ 0 := by
  unfold TradingBacktest.drawdownMin
  exact listMin_nonpos _ (fun x hx => drawdown_entry_nonpos _ x hx)

/-- Claim C9, amended: whenever `max_drawdown` yields a finite value that
value is nonpositive; when the minimum-capital estimate is 0,
`compute_pnl_percentage` reports the NaN sentinel, and `max_drawdown`
reports the NaN sentinel when the worst drawdown is 0 (e.g. an all-flat
series) but reports negative infinity — a non-NaN, non-exception float —
when the worst drawdown is negative. -/
theorem c9_amended (bars : List Bar) :
    (∀ q : ℚ, TradingBacktest.max_drawdown bars = NpVal.val q → q ≤ 0) ∧
    (TradingBacktest.estimate_minimum_capital bars = 0 →
      TradingBacktest.compute_pnl_percentage bars = none ∧
      (TradingBacktest.drawdownMin bars = 0 →
        TradingBacktest.max_drawdown bars = NpVal.nan) ∧
      (TradingBacktest.drawdownMin bars < 0 →
        TradingBacktest.max_drawdown bars = NpVal.neginf)) := by
  constructor
  · intro q h
    unfold TradingBacktest.max_drawdown npDiv at h
    by_cases hz : TradingBacktest.estimate_minimum_capital bars = 0
    · rw [if_pos hz] at h
      split_ifs at h
    · rw [if_neg hz] at h
      have hmc : 0 < TradingBacktest.estimate_minimum_capital bars := by
        refine lt_of_le_of_ne ?_ (Ne.symm hz)
        unfold TradingBacktest.estimate_minimum_capital
        exact le_max_right _ _
      have hq : q =
          TradingBacktest.drawdownMin bars /
            TradingBacktest.estimate_minimum_capital bars := by
        injection h with h'
        exact h'.symm
      rw [hq]
      exact div_nonpos_iff.2 (Or.inr ⟨drawdownMin_nonpos bars, hmc.le⟩)
  · intro hz
    refine ⟨?_, ?_, ?_⟩
    · simp [TradingBacktest.compute_pnl_percentage, hz]
    · intro hd
      unfold TradingBacktest.max_drawdown npDiv
      rw [if_pos hz]
      simp [hd]
    · intro hd
      unfold TradingBacktest.max_drawdown npDiv
      rw [if_pos hz, if_neg (by linarith : ¬ 0 < TradingBacktest.drawdownMin bars),
        if_pos hd]

/-- Witness for C9's amended statement: the one-bar all-flat series has
estimate 0, and both operations report the NaN sentinel. -/
theorem c9_amended_witness :
    TradingBacktest.compute_pnl_percentage flatBars = none ∧
    TradingBacktest.max_drawdown flatBars = NpVal.nan :=
  ⟨((c9_amended flatBars).2 (by norm_num [TradingBacktest.estimate_minimum_capital,
      TradingBacktest.capital_required, pnlRawValues, cumsumQ, cumsumFrom,
      listMax, flatBars])).1,
   ((c9_amended flatBars).2 (by norm_num [TradingBacktest.estimate_minimum_capital,
      TradingBacktest.capital_required, pnlRawValues, cumsumQ, cumsumFrom,
      listMax, flatBars])).2.1
    (by norm_num [TradingBacktest.drawdownMin, TradingBacktest.compute_daily_pnl,
      TradingBacktest.pnlRows, pnlRawValues, groupbySum, sortedUnique,
      insertSorted, sumForDate, cumsumQ, cumsumFrom, cummax, cummaxFrom,
      listMin, List.filter, flatBars])⟩

/-- Claim C9 counterexample: a series (large long gain, then a short
window losing 20 on the second date) whose minimum-capital estimate is 0
while the worst drawdown is −20: `max_drawdown` evaluates to negative
infinity, not the NaN "undefined" sentinel the claim promises for every
zero-capital input. -/
theorem c9_counterexample :
    TradingBacktest.estimate_minimum_capital
        [⟨0, 1, 10, 1⟩, ⟨1, 1, 1000, 0⟩, ⟨2, 2, 100, -1⟩, ⟨3, 2, 120, 0⟩] = 0 ∧
    TradingBacktest.max_drawdown
        [⟨0, 1, 10, 1⟩, ⟨1, 1, 1000, 0⟩, ⟨2, 2, 100, -1⟩, ⟨3, 2, 120, 0⟩] =
      NpVal.neginf := by
  constructor <;>
    norm_num [TradingBacktest.estimate_minimum_capital,
      TradingBacktest.capital_required, TradingBacktest.max_drawdown,
      TradingBacktest.drawdownMin, TradingBacktest.compute_daily_pnl,
      TradingBacktest.pnlRows, pnlRawValues, cumsumQ, cumsumFrom, groupbySum,
      sortedUnique, insertSorted, sumForDate, listMax, listMin, cummax,
      cummaxFrom, npDiv, List.filter]

/-- Claim C10: the series every `Metrics` statistic works on,
`backtest.daily_PNL().diff().dropna()`, equals the per-date PnL series
with its first date removed, so every metric excludes the first calendar
day; in particular the series has `n - 1` entries for `n` dates, and
`win_rate` is the fraction of positive days among those `n - 1`. -/
theorem c10_metrics_first_day_excluded (t : Backtest_Derivates.PnlType)
    (bars : List Bar) :
    Metrics.daily_pnl t bars =
      (groupbySum (Backtest_Derivates.pnlRows t bars)).drop 1 ∧
    (Metrics.daily_pnl t bars).length =
      (groupbySum (Backtest_Derivates.pnlRows t bars)).length - 1 ∧
    Metrics.win_rate t bars =
      ((((groupbySum (Backtest_Derivates.pnlRows t bars)).drop 1).filter
          (fun r => 0 < r.2)).length : ℚ) /
        (((groupbySum (Backtest_Derivates.pnlRows t bars)).length - 1 : ℕ) : ℚ) := by
  have key : Metrics.daily_pnl t bars =
      (groupbySum (Backtest_Derivates.pnlRows t bars)).drop 1 := by
    unfold Metrics.daily_pnl Backtest_Derivates.daily_PNL
    exact diffDropna_cumsumSnd _
  refine ⟨key, ?_, ?_⟩
  · rw [key, List.length_drop]
  · unfold Metrics.win_rate
    rw [key]
    by_cases hn :
        0 < ((groupbySum (Backtest_Derivates.pnlRows t bars)).drop 1).length
    · rw [List.length_drop] at hn
      simp only [List.length_drop]
      rw [if_pos hn]
    · have hnil : (groupbySum (Backtest_Derivates.pnlRows t bars)).drop 1 = [] :=
        List.eq_nil_of_length_eq_zero (Nat.eq_zero_of_not_pos hn)
      rw [hnil]
      simp
